import Mathlib

/-
Verification of the dgraph-backup-tool orchestrator against its
natural-language specification.

The development shallowly embeds the relevant parts of the source:
  - Go's path/filepath Match (glob matcher), used by cleanupTmpFiles;
  - cleanupTmpFiles (main.go of the export tool);
  - (c *Client).Export (internal/dgraph/export/export.go);
  - the bodies of the timer-loop tick case (exportLoop) and of the
    HTTP handler returned by apiExportHandler;
  - an event-level model of the process interleaving timer ticks,
    leadership transitions and on-demand HTTP export requests.

Go strings are modelled as lists of characters; Go runes are modelled as
Chars (the inputs relevant here are ASCII, where one byte is one rune).
-/

/-- Go strings, modelled as lists of characters. -/
abbrev Str := List Char

deriving instance DecidableEq for Except

namespace GoFilepath

/-- Error result of Go's filepath.Match on a malformed pattern
(ErrBadPattern). -/
inductive MatchErr
  | badPattern
deriving DecidableEq, Repr

/-- Embedding of getEsc (path/filepath/match.go): reads a possibly
backslash-escaped character from a character-class chunk.  Errors when the
chunk is empty, starts with a dash or a closing bracket, when a backslash
ends the chunk, or when nothing follows the read character (the class is
then unterminated). -/
def getEsc (chunk : Str) : Except MatchErr (Char × Str) :=
  match chunk with
  | [] => .error .badPattern
  | c0 :: rest0 =>
    if c0 = '-' || c0 = ']' then .error .badPattern
    else
      let esc : Except MatchErr (Char × Str) :=
        if c0 = '\\' then
          match rest0 with
          | [] => .error .badPattern
          | c1 :: rest1 => .ok (c1, rest1)
        else .ok (c0, rest0)
      match esc with
      | .error e => .error e
      | .ok (r, nchunk) =>
        if nchunk = [] then .error .badPattern else .ok (r, nchunk)

/-- Embedding of the range-parsing loop in the character-class case of
matchChunk (path/filepath/match.go): consumes lo, optional dash and hi for
each range until the closing bracket, recording whether the rune r falls
into some range.  The loop consumes at least one pattern character per
iteration, so fuel equal to the chunk length always suffices; exhausted
fuel (unreachable) is reported as a bad pattern. -/
def parseRanges (r : Char) : Nat → Str → Bool → Nat → Except MatchErr (Bool × Str)
  | 0, _, _, _ => .error .badPattern
  | _fuel + 1, ']' :: rest, matched, _nrange + 1 => .ok (matched, rest)
  | fuel + 1, chunk, matched, nrange =>
    match getEsc chunk with
    | .error e => .error e
    | .ok (lo, chunk1) =>
      match chunk1 with
      | '-' :: chunk2 =>
        match getEsc chunk2 with
        | .error e => .error e
        | .ok (hi, chunk3) =>
          parseRanges r fuel chunk3
            (matched || (lo.toNat ≤ r.toNat && r.toNat ≤ hi.toNat)) (nrange + 1)
      | _ =>
        parseRanges r fuel chunk1
          (matched || (lo.toNat ≤ r.toNat && r.toNat ≤ lo.toNat)) (nrange + 1)

/-- Embedding of matchChunk (path/filepath/match.go): matches a starless
chunk of the pattern at the beginning of s.  Returns the unmatched rest of
s on success and none when the match failed; after a failure the chunk is
still consumed so that malformed patterns are reported.  Each iteration
consumes at least one chunk character, so fuel equal to the chunk length
always suffices; exhausted fuel (unreachable) is reported as a bad
pattern. -/
def matchChunk : Nat → Str → Str → Bool → Except MatchErr (Option Str)
  | 0, _, _, _ => .error .badPattern
  | _fuel + 1, [], s, failed => if failed then .ok none else .ok (some s)
  | fuel + 1, c :: chunkRest, s, failed0 =>
    let failed := failed0 || s.isEmpty
    match c with
    | '[' =>
      let rs : Char × Str :=
        if failed then (Char.ofNat 0, s)
        else
          match s with
          | [] => (Char.ofNat 0, [])
          | ch :: srest => (ch, srest)
      let ns : Bool × Str :=
        match chunkRest with
        | '^' :: rest => (true, rest)
        | _ => (false, chunkRest)
      match parseRanges rs.1 (ns.2.length + 1) ns.2 false 0 with
      | .error e => .error e
      | .ok (m, chunk2) =>
        matchChunk fuel chunk2 rs.2 (if m = ns.1 then true else failed)
    | '?' =>
      if failed then matchChunk fuel chunkRest s true
      else
        match s with
        | [] => matchChunk fuel chunkRest [] true
        | ch :: srest => matchChunk fuel chunkRest srest (ch = '/')
    | '\\' =>
      match chunkRest with
      | [] => .error .badPattern
      | c1 :: chunkRest1 =>
        if failed then matchChunk fuel chunkRest1 s true
        else
          match s with
          | [] => matchChunk fuel chunkRest1 [] true
          | ch :: srest => matchChunk fuel chunkRest1 srest (c1 ≠ ch)
    | _ =>
      if failed then matchChunk fuel chunkRest s true
      else
        match s with
        | [] => matchChunk fuel chunkRest [] true
        | ch :: srest => matchChunk fuel chunkRest srest (c ≠ ch)

/-- Embedding of the leading-star stripping in scanChunk
(path/filepath/match.go). -/
def stripStars : Str → Bool × Str
  | '*' :: rest => (true, (stripStars rest).2)
  | p => (false, p)

/-- Embedding of the Scan loop of scanChunk (path/filepath/match.go):
splits the pattern, after leading stars were stripped, into the next
starless chunk and the remaining pattern.  A backslash skips the next
character; a star inside a bracket class does not end the chunk. -/
def scanChunkSplit : Bool → Str → Str × Str
  | _, [] => ([], [])
  | inrange, c :: rest =>
    if c = '*' && !inrange then ([], c :: rest)
    else if c = '\\' then
      match rest with
      | [] => ([c], [])
      | c1 :: rest1 =>
        let cr := scanChunkSplit inrange rest1
        (c :: c1 :: cr.1, cr.2)
    else
      let inrange1 := if c = '[' then true else if c = ']' then false else inrange
      let cr := scanChunkSplit inrange1 rest
      (c :: cr.1, cr.2)

/-- Embedding of scanChunk (path/filepath/match.go): strips leading stars
and returns (saw a star, next chunk, remaining pattern). -/
def scanChunk (p : Str) : Bool × Str × Str :=
  let sp := stripStars p
  let cr := scanChunkSplit false sp.2
  (sp.1, cr.1, cr.2)

/-- Embedding of the inner star loop of Match (path/filepath/match.go):
looks for a match of the chunk skipping one more leading character of the
name per iteration, never skipping a path separator.  The argument is the
suffix of the name from the current skip position. -/
def starLoop (chunk patRest : Str) : Str → Except MatchErr (Option Str)
  | [] => .ok none
  | c :: rest =>
    if c = '/' then .ok none
    else
      match matchChunk (chunk.length + 1) chunk rest false with
      | .error e => .error e
      | .ok (some t) =>
        if patRest = [] && t ≠ [] then starLoop chunk patRest rest
        else .ok (some t)
      | .ok none => starLoop chunk patRest rest

/-- Embedding of the Pattern loop of Match (path/filepath/match.go).
Each iteration consumes at least one pattern character via scanChunk, so
fuel equal to the pattern length always suffices; exhausted fuel
(unreachable) is reported as a bad pattern. -/
def matchLoop : Nat → Str → Str → Except MatchErr Bool
  | 0, _, _ => .error .badPattern
  | _fuel + 1, [], name => .ok (name = [])
  | fuel + 1, pat, name =>
    let scr := scanChunk pat
    let star := scr.1
    let chunk := scr.2.1
    let rest := scr.2.2
    if star && chunk = [] then .ok (!name.contains '/')
    else
      let tryStar : Except MatchErr Bool :=
        if star then
          match starLoop chunk rest name with
          | .error e => .error e
          | .ok (some t) => matchLoop fuel rest t
          | .ok none => .ok false
        else .ok false
      match matchChunk (chunk.length + 1) chunk name false with
      | .error e => .error e
      | .ok (some t) =>
        if t = [] || rest ≠ [] then matchLoop fuel rest t
        else tryStar
      | .ok none => tryStar

/-- Embedding of Go's filepath.Match: shell glob matching, where a star
matches any run of non-separator characters, a question mark one
non-separator character, and brackets a character class.  This is the
matcher cleanupTmpFiles applies to directory-entry names. -/
def Match (pat name : Str) : Except MatchErr Bool :=
  matchLoop (pat.length + 1) pat name

end GoFilepath

/-! Cleanup sweeper (cleanupTmpFiles in the export tool's main.go). -/

/-- One result of os.ReadDir: a directory entry with a name and a
directory flag. -/
structure DirEntry where
  name : Str
  isDir : Bool
deriving DecidableEq, Repr

/-- The errors cleanupTmpFiles can return: the os.ReadDir error, the
filepath.Match ErrBadPattern, or an os.RemoveAll error. -/
inductive CleanupError
  | listFailed (e : Str)
  | badPattern
  | removeFailed (e : Str)
deriving DecidableEq, Repr

/-- Embedding of filepath.Join for the non-empty, already clean components
cleanupTmpFiles joins. -/
def joinPath (dir nm : Str) : Str := dir ++ ('/' :: nm)

/-- Embedding of the entry loop of cleanupTmpFiles (main.go): for each
entry of the root listing in order, the entry name is matched with
filepath.Match (a match error returns immediately); a directory entry
whose name matches is removed with os.RemoveAll (an error returns
immediately).  The removeAll argument models os.RemoveAll: none is
success, some e the error e.  The result records the paths passed to
os.RemoveAll, in order, and the returned error if any. -/
def cleanupEntriesRun (pat pfx : Str) (removeAll : Str → Option Str) :
    List DirEntry → List Str × Option CleanupError
  | [] => ([], none)
  | e :: rest =>
    match GoFilepath.Match pat e.name with
    | .error _ => ([], some .badPattern)
    | .ok m =>
      if e.isDir && m then
        let path := joinPath pfx e.name
        match removeAll path with
        | some msg => ([path], some (.removeFailed msg))
        | none =>
          let pr := cleanupEntriesRun pat pfx removeAll rest
          (path :: pr.1, pr.2)
      else cleanupEntriesRun pat pfx removeAll rest

/-- Embedding of cleanupTmpFiles (main.go): os.ReadDir on the root is
modelled by the readDir argument; a listing error is returned at once and
nothing is removed, otherwise the entry loop runs. -/
def cleanupTmpFiles (pat pfx : Str) (removeAll : Str → Option Str)
    (readDir : Except Str (List DirEntry)) : List Str × Option CleanupError :=
  match readDir with
  | .error e => ([], some (.listFailed e))
  | .ok entries => cleanupEntriesRun pat pfx removeAll entries

/-- The failure, if any, that processing a single entry of the cleanup
loop produces: a pattern-match error, or the os.RemoveAll error when the
entry is a matching directory and removal fails. -/
def entryFailure (pat pfx : Str) (removeAll : Str → Option Str)
    (e : DirEntry) : Option CleanupError :=
  match GoFilepath.Match pat e.name with
  | .error _ => some .badPattern
  | .ok m =>
    if e.isDir && m then
      match removeAll (joinPath pfx e.name) with
      | some msg => some (.removeFailed msg)
      | none => none
    else none

/-! Export client ((c *Client).Export in internal/dgraph/export/export.go). -/

/-- Embedding of the Response field of ExportOutput (the dgraph admin
response carrying a message and a code). -/
structure GraphqlResponse where
  message : Str
  code : Str
deriving DecidableEq, Repr

/-- Embedding of ExportOutput (export.go): the decoded export mutation
output. -/
structure ExportOutput where
  response : GraphqlResponse
  exportedFiles : List Str
deriving DecidableEq, Repr

/-- Go context.Context values, as far as this code distinguishes them:
the background context, a cancelled context, or some other live derived
context. -/
inductive GoCtx
  | background
  | cancelled
  | live (id : Nat)
deriving DecidableEq, Repr

/-- The error string Export builds when the remote response code is not
"Success" (fmt.Errorf on export.go line 82, spelling preserved): the
remote code and message appear in it verbatim. -/
def exportFailMsg (code msg : Str) : Str :=
  "export finished with unseccessfull code \"".data ++ code
    ++ "\": ".data ++ msg

/-- Embedding of (c *Client).Export (export.go lines 68 to 87).  The
remote GraphQL mutation is modelled by the mutate argument, a function
from the context the call is issued under to a transport error or a
decoded ExportOutput.  The source passes context.Background() to
cli.Mutate on line 77, not the ctx parameter, and that is embedded
faithfully here: mutate is applied to GoCtx.background whatever ctx is.
A transport error is returned unmodified; a response whose code is not
"Success" becomes the exportFailMsg error; otherwise the output is
returned. -/
def clientExport (_ctx : GoCtx) (mutate : GoCtx → Except Str ExportOutput) :
    Except Str ExportOutput :=
  match mutate GoCtx.background with
  | .error e => .error e
  | .ok out =>
    if out.response.code ≠ "Success".data then
      .error (exportFailMsg out.response.code out.response.message)
    else .ok out

/-- A successful export output used in concrete scenarios. -/
def successOutput : ExportOutput :=
  ⟨⟨"Export completed.".data, "Success".data⟩, ["f1.rdf".data, "f2.rdf".data]⟩

/-- A remote mutation that fails with the usual Go cancellation error when
issued under a cancelled context and succeeds otherwise: the behavior a
context-honoring call would exhibit on shutdown. -/
def cancelSensitiveMutate (c : GoCtx) : Except Str ExportOutput :=
  if c = GoCtx.cancelled then .error "context canceled".data
  else .ok successOutput

/-- An export output the remote rejected: code "Error" with a message, as
in the spec's scenario 4. -/
def rejectedOutput : ExportOutput :=
  ⟨⟨"export already in progress".data, "Error".data⟩, []⟩

/-- A remote mutation that always returns the rejected output. -/
def rejectedMutate (_ : GoCtx) : Except Str ExportOutput :=
  .ok rejectedOutput

/-! Bodies of the two trigger paths (main.go of the export tool). -/

/-- The externally visible actions the two trigger-path bodies perform,
in order: writing a line to the HTTP response, answering 405, logging,
and invoking the cleanup sweep. -/
inductive HAction
  | writeLine (s : Str)
  | httpError405
  | logError (s : Str)
  | logFiles (fs : List Str)
  | runCleanup
deriving DecidableEq, Repr

/-- The request method as far as apiExportHandler distinguishes it: the
POST case of its switch, or any other method (the default case). -/
inductive HMethod
  | post
  | otherMethod
deriving DecidableEq, Repr

/-- Embedding of the switch statement of the handler returned by
apiExportHandler (main.go lines 166 to 191).  Inputs model the results of
export.NewClient, of c.Export and of json.Marshal.  Returns the actions
performed and whether the handler returned early (each error branch ends
in a return statement that skips the trailing cleanup block). -/
def apiExportSwitch (newClient : Except Str Unit)
    (exportRes : Except Str ExportOutput) (marshal : ExportOutput → Except Str Str)
    (method : HMethod) : List HAction × Bool :=
  match method with
  | .post =>
    match newClient with
    | .error e => ([.writeLine e], true)
    | .ok _ =>
      match exportRes with
      | .error e => ([.writeLine e], true)
      | .ok resp =>
        match marshal resp with
        | .error e => ([.writeLine e], true)
        | .ok b => ([.writeLine b], false)
  | .otherMethod => ([.httpError405], false)

/-- Embedding of the whole handler body returned by apiExportHandler
(main.go lines 165 to 198): the switch, then, unless an error branch
returned early, the cleanup block guarded by the cleanup flag.  Whether
the sweep itself succeeds does not change the handler's response. -/
def apiExportHandlerBody (cleanup : Bool) (newClient : Except Str Unit)
    (exportRes : Except Str ExportOutput) (marshal : ExportOutput → Except Str Str)
    (method : HMethod) : List HAction :=
  let sw := apiExportSwitch newClient exportRes marshal method
  if sw.2 then sw.1
  else sw.1 ++ (if cleanup then [HAction.runCleanup] else [])

/-- Embedding of the ticker case of the select statement in exportLoop
(main.go lines 130 to 145): on an export error the error is logged and
the loop continues, skipping the rest of the iteration; on success the
exported files are logged and, when the cleanup flag is set, the cleanup
sweep runs (its own error only being logged). -/
def exportLoopTickBody (cleanup : Bool)
    (exportRes : Except Str ExportOutput) : List HAction :=
  match exportRes with
  | .error e => [.logError e]
  | .ok resp =>
    [.logFiles resp.exportedFiles]
      ++ (if cleanup then [HAction.runCleanup] else [])

/-! Event-level model of the process (main.go of the export tool).

The process runs the leader-election loop, which starts exportLoop in a
goroutine when leadership is gained (OnStartedLeading, main.go lines 76
to 78) and cancels that loop's context when leadership is lost, and the
HTTP server, whose handler goroutines run the apiExportHandler body for
each request.  The model tracks which Export calls are in flight.  Events
are delivered one at a time; an event marks an atomic state change
(starting or finishing an Export call, or a leadership transition).
Cancellation is modelled as taking effect before any later tick. -/

/-- Process state: whether exportLoop is running under a live context
(leading), whether the timer loop is currently inside c.Export, how many
HTTP handler goroutines are currently inside c.Export, and how many
Export invocations were started so far. -/
structure OrchState where
  leading : Bool
  timerExporting : Bool
  httpExporting : Nat
  started : Nat
deriving DecidableEq, Repr

/-- Initial state: follower, nothing in flight. -/
def initOrch : OrchState := ⟨false, false, 0, 0⟩

/-- The events of the model: leadership gained (OnStartedLeading) and
lost (context cancellation), a ticker delivery to exportLoop's select, the
timer-path Export call returning, an HTTP request arriving (POST or not),
and an HTTP-path Export call returning. -/
inductive OrchEv
  | gainLead
  | loseLead
  | tick
  | timerDone
  | httpReq (post : Bool)
  | httpDone
deriving DecidableEq, Repr

/-- One step of the model.  A tick starts the timer-path Export call only
when exportLoop is running (leading) and not already inside an Export
call: the loop body calls c.Export synchronously (main.go line 133), so
it cannot take a tick while a timer-path call is in flight, and while not
leading the loop is not running, so the tick is discarded with no state
change.  A POST request starts an HTTP-path Export call unconditionally
(main.go line 176): the handler checks neither leadership nor any
in-flight invocation, and the source contains no mutual-exclusion
primitive.  A non-POST request starts nothing. -/
def orchStep (s : OrchState) : OrchEv → OrchState
  | .gainLead => { s with leading := true }
  | .loseLead => { s with leading := false }
  | .tick =>
    if s.leading && !s.timerExporting then
      { s with timerExporting := true, started := s.started + 1 }
    else s
  | .timerDone => { s with timerExporting := false }
  | .httpReq post =>
    if post then
      { s with httpExporting := s.httpExporting + 1, started := s.started + 1 }
    else s
  | .httpDone => { s with httpExporting := s.httpExporting - 1 }

/-- Run of the model over an event sequence from the initial state. -/
def orchRun (evs : List OrchEv) : OrchState := evs.foldl orchStep initOrch

/-- Number of Export calls in flight: the timer-path one, if any, plus
the HTTP-path ones. -/
def activeExports (s : OrchState) : Nat :=
  (if s.timerExporting then 1 else 0) + s.httpExporting

/-- Whether an event is an on-demand POST export request. -/
def isPostReq : OrchEv → Bool
  | .httpReq true => true
  | _ => false

/-! Concrete instances used by specific scenarios. -/

/-- The cleanup root of the spec's scenario 5: the directories export123
and keep as its immediate children. -/
def c3Root : List DirEntry :=
  [⟨"export123".data, true⟩, ⟨"keep".data, true⟩]

/-- Entries of a cleanup root mixing a matching directory, a file and a
non-matching directory. -/
def c7Entries : List DirEntry :=
  [⟨"export1".data, true⟩, ⟨"notes.txt".data, false⟩, ⟨"keep".data, true⟩]

/-- An os.RemoveAll behavior that fails on the export1 directory and
succeeds elsewhere. -/
def c8Remove : Str → Option Str :=
  fun p => if p = joinPath "/tmp".data "export1".data
    then some "device busy".data else none

/-! Theorems. -/

/-- Running the model over one more event is one step of the model. -/
theorem orchRun_append_one (evs : List OrchEv) (e : OrchEv) :
    orchRun (evs ++ [e]) = orchStep (orchRun evs) e := by
  simp [orchRun, List.foldl_append]

/-- The number of in-flight HTTP-path Export calls never exceeds the
number of POST requests delivered so far. -/
theorem httpExporting_le_countP (evs : List OrchEv) :
    ∀ s : OrchState, (evs.foldl orchStep s).httpExporting ≤
      s.httpExporting + evs.countP isPostReq := by
  induction evs with
  | nil => intro s; simp
  | cons e rest ih =>
    intro s
    rw [List.foldl_cons, List.countP_cons]
    have h2 := ih (orchStep s e)
    have h1 : (orchStep s e).httpExporting ≤
        s.httpExporting + (if isPostReq e then 1 else 0) := by
      cases e with
      | httpReq b => cases b <;> simp [orchStep, isPostReq]
      | tick =>
        simp only [orchStep, isPostReq]
        split <;> simp
      | gainLead => simp [orchStep, isPostReq]
      | loseLead => simp [orchStep, isPostReq]
      | timerDone => simp [orchStep, isPostReq]
      | httpDone => simp [orchStep, isPostReq]
    by_cases hp : isPostReq e <;> simp [hp] at h1 ⊢ <;> omega

/-- C1: the claim fails on the code.  In the run where leadership is
gained, a tick starts a timer-path Export call and a POST request arrives
while that call is in flight, two Export calls are active at once: the
source contains no in-process mutual exclusion between the two trigger
paths. -/
theorem c1_two_exports_active :
    activeExports (orchRun [.gainLead, .tick, .httpReq true]) = 2 ∧
    ¬ activeExports (orchRun [.gainLead, .tick, .httpReq true]) ≤ 1 := by
  decide

/-- C1 amended: at most one timer-triggered Export call is active at any
instant (the timer loop calls Export synchronously), but on-demand POST
requests are not serialized against it or against each other, so the
number of active Export calls is only bounded by one plus the number of
POST requests delivered. -/
theorem c1_amended_active_bound (evs : List OrchEv) :
    activeExports (orchRun evs) ≤ 1 + evs.countP isPostReq := by
  have h := httpExporting_le_countP evs initOrch
  simp only [orchRun, activeExports, initOrch] at *
  split <;> omega

/-- C2: the claim fails on the code.  With a timer-path Export call in
flight, a POST request does not fail with a busy error and is not
queued: it starts a second Export call at once (one more call is in
flight and one more invocation has started). -/
theorem c2_request_during_inflight_starts_second :
    activeExports (orchRun [.gainLead, .tick]) = 1 ∧
    orchRun [.gainLead, .tick, .httpReq true] =
      { leading := true, timerExporting := true,
        httpExporting := 1, started := 2 } := by
  decide

/-- C2 amended: an on-demand POST request always starts an Export call
immediately, whatever is in flight; it is neither rejected as busy nor
queued.  The handler checks no in-process exclusivity of any kind. -/
theorem c2_amended_post_always_starts (evs : List OrchEv) :
    (orchRun (evs ++ [.httpReq true])).httpExporting =
      (orchRun evs).httpExporting + 1 ∧
    (orchRun (evs ++ [.httpReq true])).started =
      (orchRun evs).started + 1 := by
  rw [orchRun_append_one]
  simp [orchStep]

/-- C9: ticks delivered while not leading are discarded with no state
change (exportLoop is not running then), and a tick delivered while
leading with no timer-path Export call in flight starts exactly one
invocation. -/
theorem c9_leadership_gating (evs : List OrchEv) :
    ((orchRun evs).leading = false → orchRun (evs ++ [.tick]) = orchRun evs) ∧
    ((orchRun evs).leading = true → (orchRun evs).timerExporting = false →
      (orchRun (evs ++ [.tick])).started = (orchRun evs).started + 1 ∧
      (orchRun (evs ++ [.tick])).timerExporting = true) := by
  constructor
  · intro h
    rw [orchRun_append_one]
    simp [orchStep, h]
  · intro h1 h2
    rw [orchRun_append_one]
    simp [orchStep, h1, h2]

/-- Witness for C9 at concrete runs: from the initial follower state a
tick changes nothing, and after leadership is gained a tick starts one
invocation. -/
theorem c9_leadership_gating_witness :
    orchRun ([] ++ [OrchEv.tick]) = orchRun [] ∧
    (orchRun ([OrchEv.gainLead] ++ [OrchEv.tick])).started =
      (orchRun [OrchEv.gainLead]).started + 1 := by
  refine ⟨(c9_leadership_gating []).1 (by decide),
    ((c9_leadership_gating [OrchEv.gainLead]).2 (by decide) (by decide)).1⟩

/-- C4: the claim fails on the code.  With cleanup enabled, a failed
Invocation triggers no sweep on either path: the timer loop continues
past the cleanup block on an export error (main.go line 136), and the
handler's error branches return before the cleanup block (main.go lines
174, 179, 185). -/
theorem c4_no_cleanup_after_failed_invocation :
    HAction.runCleanup ∉
      exportLoopTickBody true (.error "connection refused".data) ∧
    HAction.runCleanup ∉
      apiExportHandlerBody true (.ok ()) (.error "connection refused".data)
        (fun _ => .ok []) HMethod.post := by
  decide

/-- C4 amended: with cleanup enabled, the sweep runs after an Invocation
exactly when it succeeded: on the timer path after a successful export,
and on the on-demand POST path after client construction, export and
marshalling all succeeded. -/
theorem c4_amended_cleanup_on_success_only (cleanup : Bool)
    (newClient : Except Str Unit) (exportRes : Except Str ExportOutput)
    (marshal : ExportOutput → Except Str Str) :
    (HAction.runCleanup ∈ exportLoopTickBody cleanup exportRes ↔
      cleanup = true ∧ ∃ out, exportRes = .ok out) ∧
    (HAction.runCleanup ∈
        apiExportHandlerBody cleanup newClient exportRes marshal .post ↔
      cleanup = true ∧ (∃ u, newClient = .ok u) ∧
        ∃ out b, exportRes = .ok out ∧ marshal out = .ok b) := by
  constructor
  · cases exportRes with
    | error e => simp [exportLoopTickBody]
    | ok out => cases cleanup <;> simp [exportLoopTickBody]
  · cases newClient with
    | error e => simp [apiExportHandlerBody, apiExportSwitch]
    | ok u =>
      cases exportRes with
      | error e => simp [apiExportHandlerBody, apiExportSwitch]
      | ok out =>
        cases hm : marshal out with
        | error e => simp [apiExportHandlerBody, apiExportSwitch, hm]
        | ok b => cases cleanup <;> simp [apiExportHandlerBody, apiExportSwitch, hm]

/-- C10: the claim fails on the code.  A POST request whose export
attempt fails writes the error and returns before the cleanup block, so
no sweep runs for it even with cleanup enabled. -/
theorem c10_failed_export_skips_cleanup :
    HAction.runCleanup ∉
      apiExportHandlerBody true (.ok ())
        (.error "export finished with unseccessfull code \"Error\": export already in progress".data)
        (fun _ => .ok []) HMethod.post := by
  decide

/-- C10 amended: with cleanup enabled, a request to the export endpoint
triggers a sweep when it is a non-POST request (rejected with 405) or a
POST request whose client construction, export and marshalling all
succeed; a POST request failing any of those steps returns early and
triggers no sweep. -/
theorem c10_amended_cleanup_requests (newClient : Except Str Unit)
    (exportRes : Except Str ExportOutput)
    (marshal : ExportOutput → Except Str Str) :
    HAction.runCleanup ∈
      apiExportHandlerBody true newClient exportRes marshal .otherMethod ∧
    (HAction.runCleanup ∈
        apiExportHandlerBody true newClient exportRes marshal .post ↔
      (∃ u, newClient = .ok u) ∧
        ∃ out b, exportRes = .ok out ∧ marshal out = .ok b) := by
  constructor
  · simp [apiExportHandlerBody, apiExportSwitch]
  · cases newClient with
    | error e => simp [apiExportHandlerBody, apiExportSwitch]
    | ok u =>
      cases exportRes with
      | error e => simp [apiExportHandlerBody, apiExportSwitch]
      | ok out =>
        cases hm : marshal out with
        | error e => simp [apiExportHandlerBody, apiExportSwitch, hm]
        | ok b => simp [apiExportHandlerBody, apiExportSwitch, hm]

/-- C5: the claim fails on the code.  Export issues the remote mutation
under context.Background() instead of its ctx parameter (export.go line
77): even under an already-cancelled caller context, a remote call that
would abort under a cancelled context proceeds and Export returns its
success, so cancelling the caller's context does not abort the in-flight
remote call. -/
theorem c5_background_ctx_used :
    clientExport GoCtx.cancelled cancelSensitiveMutate = .ok successOutput ∧
    cancelSensitiveMutate GoCtx.cancelled = .error "context canceled".data := by
  decide

/-- C6: Export returns an output exactly when the remote mutation (issued
under the background context) succeeds with response code Success; a
non-Success code becomes an error carrying that code and message
verbatim; a transport error is returned unmodified. -/
theorem c6_export_outcome (ctx : GoCtx)
    (mutate : GoCtx → Except Str ExportOutput) :
    (∀ out, clientExport ctx mutate = .ok out ↔
      mutate GoCtx.background = .ok out ∧
        out.response.code = "Success".data) ∧
    (∀ out, mutate GoCtx.background = .ok out →
      out.response.code ≠ "Success".data →
      clientExport ctx mutate =
        .error (exportFailMsg out.response.code out.response.message) ∧
      ∃ pre mid, exportFailMsg out.response.code out.response.message =
        pre ++ out.response.code ++ mid ++ out.response.message) ∧
    (∀ e, mutate GoCtx.background = .error e →
      clientExport ctx mutate = .error e) := by
  refine ⟨?_, ?_, ?_⟩
  · intro out
    cases hm : mutate GoCtx.background with
    | error e => simp [clientExport, hm]
    | ok o =>
      by_cases hc : o.response.code = "Success".data
      · simp only [clientExport, hm, hc, ne_eq, not_true_eq_false, if_false,
          Except.ok.injEq]
        constructor
        · rintro rfl
          exact ⟨rfl, hc⟩
        · rintro ⟨h, _⟩
          exact h
      · simp only [clientExport, hm, ne_eq, hc, not_false_eq_true, if_true]
        constructor
        · intro h
          exact absurd h (by simp)
        · rintro ⟨h, hcode⟩
          injection h with h
          exact absurd (h ▸ hcode) hc
  · intro out hm hc
    refine ⟨?_, "export finished with unseccessfull code \"".data,
      "\": ".data, rfl⟩
    simp [clientExport, hm, hc]
  · intro e hm
    simp [clientExport, hm]

/-- Witness for C6 at the spec's scenario 4: a remote response with code
Error and message about an export already in progress is surfaced as the
formatted error. -/
theorem c6_export_outcome_witness :
    clientExport GoCtx.background rejectedMutate =
      .error (exportFailMsg "Error".data "export already in progress".data) :=
  ((c6_export_outcome GoCtx.background rejectedMutate).2.1 rejectedOutput
    rfl (by decide)).1

/-- C3: the claim is wrong about the code, and the code is wrong about
its own intent.  cleanupTmpFiles matches names with filepath.Match, a
shell glob matcher under which the plus sign of the configured default
pattern is a literal character: export123 does not match export[0-9]+
(only names such as export1+ do), so the sweep of a root holding
export123 and keep removes nothing at all and export123 stays. -/
theorem c3_pattern_is_glob_not_regex :
    GoFilepath.Match "export[0-9]+".data "export123".data = .ok false ∧
    GoFilepath.Match "export[0-9]+".data "export1+".data = .ok true ∧
    cleanupTmpFiles "export[0-9]+".data "/tmp".data (fun _ => none)
      (.ok c3Root) = ([], none) := by
  decide

/-- joinPath with a fixed root is injective in the entry name. -/
theorem joinPath_inj (pfx a b : Str) (h : joinPath pfx a = joinPath pfx b) :
    a = b := by
  unfold joinPath at h
  have h2 := List.append_cancel_left h
  exact (List.cons.injEq _ _ _ _ ▸ h2).2

/-- Every path the cleanup loop passes to os.RemoveAll is the joined path
of a directory entry of the listing whose name matches the pattern. -/
theorem cleanup_removed_are_matching_dirs (pat pfx : Str)
    (removeAll : Str → Option Str) (entries : List DirEntry) :
    ∀ p ∈ (cleanupEntriesRun pat pfx removeAll entries).1,
      ∃ e, e ∈ entries ∧ e.isDir = true ∧
        GoFilepath.Match pat e.name = .ok true ∧ p = joinPath pfx e.name := by
  induction entries with
  | nil => intro p hp; simp [cleanupEntriesRun] at hp
  | cons e rest ih =>
    intro p hp
    rw [cleanupEntriesRun] at hp
    split at hp
    next hm => simp at hp
    next m hm =>
      split at hp
      next hd =>
        have hdm : e.isDir = true ∧ m = true := by
          rw [Bool.and_eq_true] at hd
          exact hd
        have hdir := hdm.1
        have hmt := hdm.2
        dsimp only at hp
        split at hp
        next msg hr =>
          simp only [List.mem_singleton] at hp
          exact ⟨e, List.mem_cons_self e rest, hdir, hmt ▸ hm, hp⟩
        next hr =>
          simp only [List.mem_cons] at hp
          cases hp with
          | inl hp => exact ⟨e, List.mem_cons_self e rest, hdir, hmt ▸ hm, hp⟩
          | inr hp =>
            obtain ⟨e2, he2, h1, h2, h3⟩ := ih p hp
            exact ⟨e2, List.mem_cons_of_mem e he2, h1, h2, h3⟩
      next hd =>
        obtain ⟨e2, he2, h1, h2, h3⟩ := ih p hp
        exact ⟨e2, List.mem_cons_of_mem e he2, h1, h2, h3⟩

/-- C7: the sweep only ever removes immediate children of the root that
are directories whose name matches the pattern; a file entry, and a
directory entry whose name does not match, is never removed (assuming the
listing holds no duplicate names, as a real directory listing cannot). -/
theorem c7_cleanup_scoping (pat pfx : Str) (removeAll : Str → Option Str)
    (entries : List DirEntry)
    (hnd : (entries.map DirEntry.name).Nodup) :
    (∀ p ∈ (cleanupEntriesRun pat pfx removeAll entries).1,
      ∃ e, e ∈ entries ∧ e.isDir = true ∧
        GoFilepath.Match pat e.name = .ok true ∧ p = joinPath pfx e.name) ∧
    (∀ e ∈ entries,
      e.isDir = false ∨ GoFilepath.Match pat e.name ≠ .ok true →
      joinPath pfx e.name ∉ (cleanupEntriesRun pat pfx removeAll entries).1) := by
  refine ⟨cleanup_removed_are_matching_dirs pat pfx removeAll entries, ?_⟩
  intro e he hcond hp
  obtain ⟨e2, he2, hdir, hmatch, hjoin⟩ :=
    cleanup_removed_are_matching_dirs pat pfx removeAll entries _ hp
  have hname : e2.name = e.name := joinPath_inj pfx _ _ hjoin.symm
  have he2e : e2 = e := List.inj_on_of_nodup_map hnd he2 he hname
  subst he2e
  cases hcond with
  | inl h => rw [h] at hdir; exact Bool.false_ne_true hdir
  | inr h => exact h hmatch

/-- Witness for C7 at a concrete root: with the glob pattern export*, the
file notes.txt is not removed even though its name would not matter, and
the non-matching directory keep is not removed. -/
theorem c7_cleanup_scoping_witness :
    joinPath "/tmp".data "notes.txt".data ∉
      (cleanupEntriesRun "export*".data "/tmp".data (fun _ => none)
        c7Entries).1 ∧
    joinPath "/tmp".data "keep".data ∉
      (cleanupEntriesRun "export*".data "/tmp".data (fun _ => none)
        c7Entries).1 :=
  ⟨(c7_cleanup_scoping "export*".data "/tmp".data (fun _ => none) c7Entries
      (by decide)).2 ⟨"notes.txt".data, false⟩ (by decide) (Or.inl rfl),
   (c7_cleanup_scoping "export*".data "/tmp".data (fun _ => none) c7Entries
      (by decide)).2 ⟨"keep".data, true⟩ (by decide) (Or.inr (by decide))⟩

/-- Processing the cleanup entry loop past a prefix of failure-free
entries: the first failing entry determines the returned error and the
entries after it are never attempted (the result does not depend on
them). -/
theorem cleanup_stops_at_first_failure (pat pfx : Str)
    (removeAll : Str → Option Str) (e : DirEntry) (err : CleanupError)
    (he : entryFailure pat pfx removeAll e = some err) :
    ∀ xs ys ys', (∀ x ∈ xs, entryFailure pat pfx removeAll x = none) →
      (cleanupEntriesRun pat pfx removeAll (xs ++ e :: ys)).2 = some err ∧
      cleanupEntriesRun pat pfx removeAll (xs ++ e :: ys) =
        cleanupEntriesRun pat pfx removeAll (xs ++ e :: ys') := by
  intro xs
  induction xs with
  | nil =>
    intro ys ys' _
    simp only [List.nil_append]
    unfold entryFailure at he
    split at he
    next hm =>
      injection he with h
      subst h
      rw [cleanupEntriesRun, cleanupEntriesRun]
      simp only [hm]
      exact ⟨by trivial, by trivial⟩
    next m hm =>
      split at he
      next hd =>
        split at he
        next msg hr =>
          injection he with h
          subst h
          rw [cleanupEntriesRun, cleanupEntriesRun]
          simp only [hm, if_pos hd, hr]
          exact ⟨by trivial, by trivial⟩
        next hr => exact Option.noConfusion he
      next hd => exact Option.noConfusion he
  | cons x xs ih =>
    intro ys ys' hok
    have hx : entryFailure pat pfx removeAll x = none :=
      hok x (List.mem_cons_self x xs)
    have hrest : ∀ a ∈ xs, entryFailure pat pfx removeAll a = none :=
      fun a ha => hok a (List.mem_cons_of_mem x ha)
    obtain ⟨ih1, ih2⟩ := ih ys ys' hrest
    simp only [List.cons_append]
    unfold entryFailure at hx
    split at hx
    next hm => exact Option.noConfusion hx
    next m hm =>
      split at hx
      next hd =>
        split at hx
        next msg hr => exact Option.noConfusion hx
        next hr =>
          rw [cleanupEntriesRun, cleanupEntriesRun]
          simp only [hm, if_pos hd, hr]
          exact ⟨ih1, by rw [ih2]⟩
      next hd =>
        rw [cleanupEntriesRun, cleanupEntriesRun]
        simp only [hm, if_neg hd]
        exact ⟨ih1, ih2⟩

/-- C8: a failing root listing aborts the sweep before any removal and is
returned; otherwise the sweep returns the first pattern-match or removal
failure, attempting no entry after the failing one. -/
theorem c8_error_propagation (pat pfx : Str) (removeAll : Str → Option Str)
    (s : Str) (xs : List DirEntry) (e : DirEntry) (ys ys' : List DirEntry)
    (err : CleanupError)
    (hxs : ∀ x ∈ xs, entryFailure pat pfx removeAll x = none)
    (he : entryFailure pat pfx removeAll e = some err) :
    cleanupTmpFiles pat pfx removeAll (.error s) =
      ([], some (.listFailed s)) ∧
    (cleanupEntriesRun pat pfx removeAll (xs ++ e :: ys)).2 = some err ∧
    cleanupEntriesRun pat pfx removeAll (xs ++ e :: ys) =
      cleanupEntriesRun pat pfx removeAll (xs ++ e :: ys') := by
  refine ⟨rfl, ?_, ?_⟩
  · exact (cleanup_stops_at_first_failure pat pfx removeAll e err he
      xs ys ys' hxs).1
  · exact (cleanup_stops_at_first_failure pat pfx removeAll e err he
      xs ys ys' hxs).2

/-- Witness for C8 at a concrete root: listing failure is surfaced with
no removal, and a removal failure on export1 is surfaced while the
export2 entry after it is never attempted. -/
theorem c8_error_propagation_witness :
    cleanupTmpFiles "export*".data "/tmp".data c8Remove
      (.error "permission denied".data) =
      ([], some (.listFailed "permission denied".data)) ∧
    (cleanupEntriesRun "export*".data "/tmp".data c8Remove
      ([⟨"keep".data, true⟩] ++ ⟨"export1".data, true⟩ ::
        [⟨"export2".data, true⟩])).2 =
      some (.removeFailed "device busy".data) ∧
    cleanupEntriesRun "export*".data "/tmp".data c8Remove
      ([⟨"keep".data, true⟩] ++ ⟨"export1".data, true⟩ ::
        [⟨"export2".data, true⟩]) =
      cleanupEntriesRun "export*".data "/tmp".data c8Remove
        ([⟨"keep".data, true⟩] ++ ⟨"export1".data, true⟩ :: []) :=
  c8_error_propagation "export*".data "/tmp".data c8Remove
    "permission denied".data [⟨"keep".data, true⟩] ⟨"export1".data, true⟩
    [⟨"export2".data, true⟩] [] (.removeFailed "device busy".data)
    (by decide) (by decide)
